import Mathlib

set_option maxHeartbeats 1000000

namespace ProjectAgent

/-! Shallow embedding of the project-agent repository.

The first part embeds the frontend helpers that are present in the source
tree (`src/frontend/lib/pipeline.ts`, `src/frontend/components/ChatPanel.tsx`
and the `DocumentList` component).  The second part models the A..E bid
pipeline; its Python backend (`backend/agents/structure_extractor.py`,
`spec_extractor.py`, `plan_outliner.py`, `bid_assembler.py`,
`sanity_checker.py` and `workflow/bid_graph.py`) is referenced by the README
and the frontend but is not contained in the source tree, so those
definitions are modelled from the specification. -/

/-! ### Frontend: stage grouping (`src/frontend/lib/pipeline.ts`) -/

/-- Status of a stage bucket, from the union type used in `groupByStage`. -/
inductive StageStatus where
  | pending
  | running
  | succeeded
  | failed
  deriving DecidableEq

/-- An agent event received over SSE, from `AgentEvent` in
`src/frontend/hooks/usePipelineEvents.ts`.  The free-form `meta` payload is
never inspected by `groupByStage` and is omitted. -/
structure AgentEvent where
  ts : Nat
  sessionId : String
  stage : Option String
  agent : Option String
  action : Option String
  status : Option String
  deriving DecidableEq

/-- The eight stage keys of `PIPELINE_ORDER` in `src/frontend/lib/pipeline.ts`. -/
def PIPELINE_ORDER : List String :=
  ["document_parsing", "parsing_completed", "bid_build_ready", "research",
   "drafting", "review", "final", "bid_build_completed"]

/-- A stage bucket of `groupByStage`: per-agent event lists plus a status. -/
structure StageBucket where
  agents : List (String × List AgentEvent)
  status : StageStatus
  deriving DecidableEq

/-- Lookup in an insertion-ordered association list (a JavaScript `Map`). -/
def alookup {β : Type} (k : String) : List (String × β) → Option β
  | [] => none
  | (k2, v) :: rest => if k2 = k then some v else alookup k rest

/-- Update the value stored under `k`, leaving other keys untouched. -/
def aupdate {β : Type} (k : String) (f : β → β) : List (String × β) → List (String × β)
  | [] => []
  | (k2, v) :: rest => if k2 = k then (k2, f v) :: rest else (k2, v) :: aupdate k f rest

/-- JavaScript `x || d` on an optional string: both `undefined` and the empty
string fall through to the default. -/
def orDefault (x : Option String) (d : String) : String :=
  match x with
  | none => d
  | some s => if s = "" then d else s

/-- The stage key an event is grouped under: `ev.stage || "general_coordination"`. -/
def evStageKey (ev : AgentEvent) : String :=
  orDefault ev.stage "general_coordination"

/-- The agent key an event is filed under: `ev.agent || "unknown"`. -/
def evAgentKey (ev : AgentEvent) : String :=
  orDefault ev.agent "unknown"

/-- Append an event to its agent bucket, creating the bucket when missing,
mirroring the `bucket.agents` updates in `groupByStage`. -/
def pushAgentEvent (ev : AgentEvent) (ags : List (String × List AgentEvent)) :
    List (String × List AgentEvent) :=
  if (alookup (evAgentKey ev) ags).isSome then
    aupdate (evAgentKey ev) (fun l => l ++ [ev]) ags
  else
    ags ++ [(evAgentKey ev, [ev])]

/-- The status-update chain of `groupByStage`: `failed` wins outright,
`running`/`processing` promote only a `pending` bucket, and `succeeded`
marks only a `pending` bucket. -/
def bumpStatus (evs : Option String) (cur : StageStatus) : StageStatus :=
  if evs = some "failed" then .failed
  else if (evs.getD "") = "running" ∨ (evs.getD "") = "processing" then
    (if cur = .pending then .running else cur)
  else if evs = some "succeeded" ∧ cur = .pending then .succeeded
  else cur

/-- One iteration of the `for (const ev of events)` loop of `groupByStage`:
ensure the stage key exists, push the event, update the status. -/
def groupStep (m : List (String × StageBucket)) (ev : AgentEvent) :
    List (String × StageBucket) :=
  let m1 := if (alookup (evStageKey ev) m).isSome then m
            else m ++ [(evStageKey ev, ⟨[], .pending⟩)]
  aupdate (evStageKey ev)
    (fun b => ⟨pushAgentEvent ev b.agents, bumpStatus ev.status b.status⟩) m1

/-- The initial stage map: one pending bucket per `PIPELINE_ORDER` key. -/
def initStageMap : List (String × StageBucket) :=
  PIPELINE_ORDER.map (fun s => (s, ⟨[], .pending⟩))

/-- `groupByStage` from `src/frontend/lib/pipeline.ts`. -/
def groupByStage (events : List AgentEvent) : List (String × StageBucket) :=
  events.foldl groupStep initStageMap

/-! ### Frontend: agent-name canonicalization (`ChatPanel.tsx`) -/

/-- The `agentMapping` table of `mapAgentNameToKey` in
`src/frontend/components/ChatPanel.tsx`. -/
def agentMapping : List (String × String) :=
  [("coordinator", "coordinator"),
   ("document_parser", "coordinator"),
   ("DocumentParserAgent", "coordinator"),
   ("StructureExtractor", "structure_extractor"),
   ("SpecExtractor", "spec_extractor"),
   ("PlanOutliner", "plan_outliner"),
   ("BidAssembler", "bid_assembler"),
   ("SanityChecker", "sanity_checker"),
   ("structure_extractor", "structure_extractor"),
   ("spec_extractor", "spec_extractor"),
   ("plan_outliner", "plan_outliner"),
   ("bid_assembler", "bid_assembler"),
   ("sanity_checker", "sanity_checker")]

/-- `mapAgentNameToKey` from `ChatPanel.tsx`:
`agentMapping[backendAgentName] || backendAgentName`. -/
def mapAgentNameToKey (backendAgentName : String) : String :=
  orDefault (alookup backendAgentName agentMapping) backendAgentName

/-! ### Frontend: document list de-duplication (`DocumentList` component) -/

/-- A file entry of the document list component. -/
structure FileItem where
  name : String
  path : String
  deriving DecidableEq

/-- Recursion of `dedupeByPath` with the mutable `seen` set made explicit:
an item survives the filter exactly when its path was not seen earlier. -/
def dedupeByPathAux (seen : List String) : List FileItem → List FileItem
  | [] => []
  | f :: fs =>
    if f.path ∈ seen then dedupeByPathAux seen fs
    else f :: dedupeByPathAux (f.path :: seen) fs

/-- `dedupeByPath` from the `DocumentList` component: keep the first item
carrying each distinct path. -/
def dedupeByPath (files : List FileItem) : List FileItem :=
  dedupeByPathAux [] files

/-- The first item of a list carrying a given path. -/
def findByPath (p : String) : List FileItem → Option FileItem
  | [] => none
  | f :: fs => if f.path = p then some f else findByPath p fs

/-! ### Text utilities shared by the pipeline model -/

/-- Normalization applied before alias matching: ASCII lowercasing and
removal of whitespace, making the matching case- and whitespace-insensitive
as the spec requires. -/
def normChars (cs : List Char) : List Char :=
  (cs.map Char.toLower).filter
    (fun c => !(c == ' ' || c == '\t' || c == '\r' || c == '\n'))

/-- Boolean list-prefix test. -/
def isPrefixList : List Char → List Char → Bool
  | [], _ => true
  | _ :: _, [] => false
  | p :: ps, c :: cs => p == c && isPrefixList ps cs

/-- Boolean substring test on character lists. -/
def containsList (pat : List Char) : List Char → Bool
  | [] => isPrefixList pat []
  | c :: cs => isPrefixList pat (c :: cs) || containsList pat cs

/-- Whitespace- and case-insensitive substring test on strings. -/
def containsSub (pat line : String) : Bool :=
  containsList (normChars pat.data) (normChars line.data)

/-- A line matches an alias family when it contains any alias. -/
def matchesAny (aliases : List String) (line : String) : Bool :=
  aliases.any (fun a => containsSub a line)

/-- First index satisfying a predicate, made structural so that every
marker search in the model returns the earliest match. -/
def findIdxP (p : String → Bool) : List String → Option Nat
  | [] => none
  | l :: rest => if p l then some 0 else (findIdxP p rest).map (· + 1)

/-- A string is blank when nothing is left after normalization. -/
def isBlank (s : String) : Bool :=
  (normChars s.data).isEmpty

/-! ### Pipeline model, stage B: SpecExtractor

Modelled from the spec: `backend/agents/spec_extractor.py` is not in the
source tree; the definitions below follow section 4.2 of the spec. -/

/-- Modelled from the spec: the configured alias family locating the start
of the technical-specification chapter (`spec_extractor.py` is missing from
the source tree). -/
def specStartAliases : List String :=
  ["第四章技术规格书", "第4章技术规格书", "技术规格书", "技术要求"]

/-- Modelled from the spec: the configured alias family for the bid-format
chapter, used both as stage A trigger and stage B end marker
(`spec_extractor.py` and `structure_extractor.py` are missing from the
source tree). -/
def bidFormatAliases : List String :=
  ["第五章投标文件格式", "第5章投标文件格式", "投标文件格式"]

/-- A line carrying the specification-chapter start marker. -/
def isStartMarker (line : String) : Bool :=
  matchesAny specStartAliases line

/-- A line carrying the bid-format end marker. -/
def isEndMarker (line : String) : Bool :=
  matchesAny bidFormatAliases line

/-- Modelled from the spec: the fixed checklist-style default specification
outline returned when no start marker is found; it is a closed constant and
does not depend on the input (`spec_extractor.py` is missing from the
source tree). -/
def defaultSpecChecklist : List String :=
  ["# 技术规格书（默认模板）",
   "- [ ] 工期与进度要求",
   "- [ ] 质量标准",
   "- [ ] 安全要求",
   "- [ ] 环境保护要求",
   "- [ ] 第三方检测要求",
   "- [ ] 验收程序",
   "- [ ] 资料交付要求"]

/-- Modelled from the spec: `extractSpec(tenderText) -> specText`, stage B.
Locate the earliest start-marker line; locate the earliest end-marker line
after it; slice from the start marker up to but excluding the end-marker
line; with no end marker slice to the end of the document; with no start
marker return the fixed checklist template
(`spec_extractor.py` is missing from the source tree). -/
def extractSpec (tenderLines : List String) : List String :=
  match findIdxP isStartMarker tenderLines with
  | none => defaultSpecChecklist
  | some s =>
    match findIdxP isEndMarker ((tenderLines.drop s).drop 1) with
    | none => tenderLines.drop s
    | some k => (tenderLines.drop s).take (k + 1)

/-! ### Pipeline model, stage A: StructureExtractor -/

/-- Modelled from the spec: the near-synonym table canonicalizing heading
variants before de-duplication (`structure_extractor.py` is missing from
the source tree). -/
def synonymTable : List (String × String) :=
  [("偏差表", "商务和技术偏差表"),
   ("技术偏差表", "商务和技术偏差表"),
   ("施工组织设计", "方案详细说明及施工组织设计"),
   ("方案详细说明", "方案详细说明及施工组织设计")]

/-- Canonicalize a section title through the synonym table. -/
def canonicalize (t : String) : String :=
  (alookup t synonymTable).getD t

/-- De-duplication of canonical titles keeping document order, with the
seen set made explicit. -/
def dedupTitlesAux (seen : List String) : List String → List String
  | [] => []
  | t :: ts =>
    if t ∈ seen then dedupTitlesAux seen ts
    else t :: dedupTitlesAux (t :: seen) ts

/-- Keep the first occurrence of each canonical title. -/
def dedupTitles (ts : List String) : List String :=
  dedupTitlesAux [] ts

/-- A chapter-boundary line, used to stop collecting sub-headings. -/
def isChapterLine (line : String) : Bool :=
  containsSub "第" line && containsSub "章" line

/-- A line that opens the bid-format chapter, the stage A trigger. -/
def isFormatChapterLine (line : String) : Bool :=
  matchesAny bidFormatAliases line

/-- A markdown heading line. -/
def isHeadingLine (line : String) : Bool :=
  line.startsWith "#"

/-- Strip the markdown heading markers from a heading line. -/
def stripHeadingMarks (line : String) : String :=
  String.mk (line.data.dropWhile (fun c => c == '#' || c == ' '))

/-- Modelled from the spec: tier 1, header-pattern extraction.  Find the
bid-format chapter heading, then read the heading lines that follow it,
up to the next chapter boundary, as the section list
(`structure_extractor.py` is missing from the source tree). -/
def tier1Structure (tenderLines : List String) : List String :=
  match findIdxP isFormatChapterLine tenderLines with
  | none => []
  | some i =>
    (((tenderLines.drop (i + 1)).takeWhile (fun l => !isChapterLine l)).filter
        isHeadingLine).map (fun l => canonicalize (stripHeadingMarks l))

/-- A short numbered line, the shape of a table-of-contents entry. -/
def isTocLine (line : String) : Bool :=
  let cs := normChars line.data
  decide (0 < cs.length) && decide (cs.length ≤ 30) && (cs.headD ' ').isDigit

/-- Strip the leading numbering of a table-of-contents entry. -/
def stripTocNum (line : String) : String :=
  String.mk (line.data.dropWhile
    (fun c => c.isDigit || c == '.' || c == '、' || c == ' '))

/-- The first contiguous run of table-of-contents lines. -/
def tocBlock : List String → List String
  | [] => []
  | l :: ls => if isTocLine l then (l :: ls).takeWhile isTocLine else tocBlock ls

/-- Modelled from the spec: tier 2, table-of-contents-driven extraction; a
detected contiguous run of at least three short numbered lines yields the
section list (`structure_extractor.py` is missing from the source tree). -/
def tier2Structure (tenderLines : List String) : List String :=
  let b := tocBlock tenderLines
  if 3 ≤ b.length then b.map (fun l => canonicalize (stripTocNum l)) else []

/-- Modelled from the spec: the fixed, literal 11-item standard skeleton of
tier 3 (`structure_extractor.py` is missing from the source tree). -/
def defaultSkeleton : List String :=
  ["投标函",
   "法定代表人身份证明",
   "授权委托书",
   "投标保证金证明",
   "已标价工程量清单",
   "方案详细说明及施工组织设计",
   "项目管理机构",
   "拟分包情况表",
   "资格审查资料",
   "商务和技术偏差表",
   "其他资料"]

/-- Modelled from the spec: `extractStructure(tenderText) -> sectionList`,
stage A.  Tiers are tried in order, first non-empty result wins, canonical
titles are de-duplicated, and the fixed 11-item skeleton is the final
fallback (`structure_extractor.py` is missing from the source tree). -/
def extractStructure (tenderLines : List String) : List String :=
  if dedupTitles (tier1Structure tenderLines) ≠ [] then
    dedupTitles (tier1Structure tenderLines)
  else if dedupTitles (tier2Structure tenderLines) ≠ [] then
    dedupTitles (tier2Structure tenderLines)
  else defaultSkeleton

/-! ### Pipeline model, stage C: PlanOutliner -/

/-- Structured project metadata with explicit fields, from the data model
section of the spec. -/
structure ProjectMeta where
  projectName : String
  tenderNumber : String
  bidderName : String
  scoringWeights : List (String × Nat)
  deriving DecidableEq

/-- Modelled from the spec: the Completion Gateway contract
`complete(agentAlias, prompt) -> text`; `none` signals failure, distinctly
from an empty successful completion (the gateway is an external
collaborator). -/
def Gateway : Type :=
  String → String → Option String

/-- Modelled from the spec: the literal evidence-binding placeholder each
leaf subsection ends with (`plan_outliner.py` is missing from the source
tree). -/
def evidenceBindingLine : String :=
  "evidence binding: specification §x.x"

/-- Modelled from the spec: the bounded prompt character budget. -/
def promptBudget : Nat := 12000

/-- Modelled from the spec: the gateway prompt is the specification text
truncated from the start to the character budget. -/
def buildPrompt (specText : List String) : String :=
  (String.intercalate "\n" specText).take promptBudget

/-- Modelled from the spec: the deterministic fallback outline over the
scoring weights: one scored section header per weight, each followed by
the evidence-binding placeholder (`plan_outliner.py` is missing from the
source tree). -/
def fallbackOutlineOf : List (String × Nat) → List String
  | [] => []
  | sw :: rest =>
    ("## " ++ sw.1 ++ "（" ++ toString sw.2 ++ "分）") ::
      evidenceBindingLine :: fallbackOutlineOf rest

/-- The fallback outline is a function of the scoring weights of `meta` alone. -/
def fallbackOutline (meta : ProjectMeta) : List String :=
  fallbackOutlineOf meta.scoringWeights

/-- Modelled from the spec: `outlinePlan(specText, meta) -> outlineText`,
stage C.  The gateway is called on the truncated prompt; on failure or
blank output the deterministic fallback outline is returned, so a gateway
error never crosses the stage boundary (`plan_outliner.py` is missing
from the source tree). -/
def outlinePlan (gw : Gateway) (specText : List String) (meta : ProjectMeta) :
    List String :=
  match gw "plan_outliner" (buildPrompt specText) with
  | none => fallbackOutline meta
  | some out => if isBlank out then fallbackOutline meta else out.splitOn "\n"

/-! ### Pipeline model, stage E: SanityChecker -/

/-- One compliance category entry of the report: name, presence flag, and
the approximate location of the matched excerpt when present. -/
structure CategoryEntry where
  name : String
  present : Bool
  excerpt : Option Nat
  deriving DecidableEq

/-- The summary counts of the report. -/
structure SanitySummary where
  presentCount : Nat
  absentCount : Nat
  deriving DecidableEq

/-- The fixed top-level report shape. -/
structure SanityReport where
  categories : List CategoryEntry
  summary : SanitySummary
  deriving DecidableEq

/-- Modelled from the spec: the fixed, closed compliance category list with
the keyword patterns each category is checked by (`sanity_checker.py` is
missing from the source tree). -/
def complianceCategories : List (String × List String) :=
  [("工期与节点", ["工期", "里程碑", "节点"]),
   ("第三方检测", ["第三方检测", "第三方测试"]),
   ("验收程序", ["验收"]),
   ("环境保护", ["环保", "环境保护"]),
   ("安全要求", ["安全"]),
   ("资料交付", ["资料交付", "竣工资料"]),
   ("质量标准", ["质量"]),
   ("商务和技术偏差表", ["偏差表"])]

/-- A draft mentions a keyword when some line contains it. -/
def draftContains (draftLines : List String) (kw : String) : Bool :=
  draftLines.any (fun l => containsSub kw l)

/-- Index of the first line matching any keyword of a category. -/
def firstHit (draftLines : List String) (kws : List String) : Option Nat :=
  findIdxP (fun l => kws.any (fun kw => containsSub kw l)) draftLines

/-- Evaluate one category against the draft. -/
def checkCategory (draftLines : List String) (c : String × List String) :
    CategoryEntry :=
  match firstHit draftLines c.2 with
  | none => ⟨c.1, false, none⟩
  | some i => ⟨c.1, true, some i⟩

/-- Modelled from the spec: `checkSanity(draftText, meta) -> sanityReport`,
stage E: pure keyword presence checks over the fixed category list, with
summary counts of present and absent categories; the meta argument is kept
for the contract signature (`sanity_checker.py` is missing from the source
tree). -/
def checkSanity (draftLines : List String) (_meta : ProjectMeta) : SanityReport :=
  { categories := complianceCategories.map (checkCategory draftLines)
    summary :=
      { presentCount :=
          (complianceCategories.map (checkCategory draftLines)).countP
            (fun c => c.present)
        absentCount :=
          (complianceCategories.map (checkCategory draftLines)).countP
            (fun c => !c.present) } }

/-! ### Pipeline model, stage D and the orchestrator -/

/-- Modelled from the spec: the bound on the specification excerpt appended
to the draft (`bid_assembler.py` is missing from the source tree). -/
def specExcerptBudget : Nat := 200

/-- Modelled from the spec: `assembleDraft(sectionList, outlineText,
specText) -> draftText`, stage D: pure concatenation of the skeleton
rendered as headings, the outline, and an appendix-referenced
specification excerpt, truncated with a pointer when very long
(`bid_assembler.py` is missing from the source tree). -/
def assembleDraft (sectionList outline specText : List String) : List String :=
  sectionList.map (fun t => "# " ++ t) ++ outline ++
    ("## 附录：技术规格书节选" ::
      (if specText.length ≤ specExcerptBudget then specText
       else specText.take specExcerptBudget ++
         ["（节选已截断，完整内容见规格书提取文档）"]))

/-- The five pipeline stages. -/
inductive Stage where
  | A
  | B
  | C
  | D
  | E
  deriving DecidableEq

/-- The per-run pipeline state: each artifact slot is `none` until its
stage has run. -/
structure PipelineState where
  sessionId : String
  tenderLines : List String
  meta : ProjectMeta
  sectionList : Option (List String)
  specText : Option (List String)
  outlineText : Option (List String)
  draftText : Option (List String)
  sanityReport : Option SanityReport
  deriving DecidableEq

/-- The state a run starts from. -/
def initState (sessionId : String) (tenderLines : List String)
    (meta : ProjectMeta) : PipelineState :=
  ⟨sessionId, tenderLines, meta, none, none, none, none, none⟩

/-- Modelled from the spec: one orchestrator transition; each stage reads
only earlier artifacts and replaces only its own slot
(`workflow/bid_graph.py` is missing from the source tree). -/
def runStage (gw : Gateway) (st : PipelineState) : Stage → PipelineState
  | .A => { st with sectionList := some (extractStructure st.tenderLines) }
  | .B => { st with specText := some (extractSpec st.tenderLines) }
  | .C => { st with outlineText := some (outlinePlan gw (st.specText.getD []) st.meta) }
  | .D => { st with draftText := some (assembleDraft (st.sectionList.getD []) (st.outlineText.getD []) (st.specText.getD [])) }
  | .E => { st with sanityReport := some (checkSanity (st.draftText.getD []) st.meta) }

/-- The strictly linear stage order A, B, C, D, E. -/
def stageOrder : List Stage :=
  [.A, .B, .C, .D, .E]

/-- Run a sequence of stages over a state. -/
def runStages (gw : Gateway) (stages : List Stage) (st : PipelineState) :
    PipelineState :=
  stages.foldl (runStage gw) st

/-- Modelled from the spec: a full pipeline run from a fresh state
(`workflow/bid_graph.py` is missing from the source tree). -/
def runPipeline (gw : Gateway) (sessionId : String) (tenderLines : List String)
    (meta : ProjectMeta) : PipelineState :=
  runStages gw stageOrder (initState sessionId tenderLines meta)

/-- A tender document is blank when every line is blank; the empty document
is blank. -/
def isBlankDoc (tenderLines : List String) : Bool :=
  tenderLines.all (fun l => isBlank l)

/-- Errors that may cross the pipeline boundary. -/
inductive BuildError where
  | malformedInput
  | persistenceFailure
  deriving DecidableEq

/-- Modelled from the spec: the pipeline entry point `build`; malformed
input fails fast before any stage runs, otherwise the five stages run;
artifact persistence is performed by an external collaborator and is not
modelled (`api/v1/endpoints/proposals.py` is missing from the source
tree). -/
def build (gw : Gateway) (sessionId : String) (tenderLines : List String)
    (meta : ProjectMeta) : Except BuildError PipelineState :=
  if isBlankDoc tenderLines then .error .malformedInput
  else .ok (runPipeline gw sessionId tenderLines meta)

/-! ### Concrete inputs used by witnesses -/

/-- A small tender document with both chapter markers present. -/
def wTender : List String :=
  ["前言", "第四章 技术规格书", "要求甲", "要求乙", "第五章 投标文件格式", "格式一"]

/-- A gateway that is down: every call fails. -/
def gwDown : Gateway :=
  fun _ _ => none

/-- Concrete project metadata with the two scored sections of the spec. -/
def metaDemo : ProjectMeta :=
  ⟨"示例项目", "TB-001", "示例投标人",
   [("技术方案", 25), ("施工方法及主要技术措施", 25)]⟩

/-- An event that fails on the research stage. -/
def wEvFail : AgentEvent :=
  ⟨0, "s1", some "research", some "StructureExtractor", none, some "failed"⟩

/-- A later succeeded event on the same stage. -/
def wEvOk : AgentEvent :=
  ⟨1, "s1", some "research", some "StructureExtractor", none, some "succeeded"⟩

/-- A draft fragment with no environmental-protection keyword. -/
def wDraft : List String :=
  ["质量保证措施", "安全文明施工", "工期承诺"]

/-! ## Theorems -/

/-! ### Association list lemmas -/

theorem alookup_append_of_some {β : Type} {k : String} {v : β}
    {m m2 : List (String × β)} (h : alookup k m = some v) :
    alookup k (m ++ m2) = some v := by
  induction m with
  | nil => simp [alookup] at h
  | cons p rest ih =>
    obtain ⟨k2, w⟩ := p
    by_cases hk : k2 = k
    · simp_all [alookup]
    · simp only [alookup, hk, if_false] at h
      simpa [alookup, hk] using ih h

theorem alookup_append_of_none {β : Type} {k : String}
    {m m2 : List (String × β)} (h : alookup k m = none) :
    alookup k (m ++ m2) = alookup k m2 := by
  induction m with
  | nil => simp
  | cons p rest ih =>
    obtain ⟨k2, w⟩ := p
    by_cases hk : k2 = k
    · simp_all [alookup]
    · simp only [alookup, hk, if_false] at h
      simpa [alookup, hk] using ih h

theorem alookup_aupdate_self {β : Type} (k : String) (f : β → β)
    (m : List (String × β)) :
    alookup k (aupdate k f m) = (alookup k m).map f := by
  induction m with
  | nil => simp [alookup, aupdate]
  | cons p rest ih =>
    obtain ⟨k2, w⟩ := p
    by_cases hk : k2 = k
    · simp [alookup, aupdate, hk]
    · simp [alookup, aupdate, hk, ih]

theorem alookup_aupdate_ne {β : Type} {k k2 : String} (f : β → β)
    (m : List (String × β)) (h : k2 ≠ k) :
    alookup k2 (aupdate k f m) = alookup k2 m := by
  induction m with
  | nil => simp [aupdate]
  | cons p rest ih =>
    obtain ⟨k3, w⟩ := p
    by_cases hk : k3 = k
    · subst hk
      simp [alookup, aupdate, Ne.symm h, ih]
    · by_cases hk2 : k3 = k2
      · simp [alookup, aupdate, hk, hk2, h]
      · simp [alookup, aupdate, hk, hk2, ih]

theorem alookup_mem {β : Type} {k : String} {v : β} :
    ∀ {m : List (String × β)}, alookup k m = some v → (k, v) ∈ m := by
  intro m
  induction m with
  | nil => intro h; simp [alookup] at h
  | cons p rest ih =>
    intro h
    obtain ⟨k2, w⟩ := p
    by_cases hk : k2 = k
    · subst hk
      simp [alookup] at h
      subst h
      exact List.mem_cons_self _ _
    · simp only [alookup, hk, if_false] at h
      exact List.mem_cons_of_mem _ (ih h)

/-! ### Stage-grouping lemmas (C8) -/

theorem bumpStatus_of_failed (evs : Option String) :
    bumpStatus evs .failed = .failed := by
  unfold bumpStatus
  split_ifs <;> simp_all

theorem bumpStatus_failed_ev (cur : StageStatus) :
    bumpStatus (some "failed") cur = .failed := by
  unfold bumpStatus
  split_ifs <;> simp_all

theorem alookup_groupStep_self (m : List (String × StageBucket)) (ev : AgentEvent) :
    alookup (evStageKey ev) (groupStep m ev) =
      some (match alookup (evStageKey ev) m with
        | some b => ⟨pushAgentEvent ev b.agents, bumpStatus ev.status b.status⟩
        | none => ⟨pushAgentEvent ev [], bumpStatus ev.status .pending⟩) := by
  cases hb : alookup (evStageKey ev) m with
  | some b0 =>
    have hs : (alookup (evStageKey ev) m).isSome = true := by simp [hb]
    simp only [groupStep, hs, if_true]
    rw [alookup_aupdate_self, hb]
    rfl
  | none =>
    have hs : (alookup (evStageKey ev) m).isSome = false := by simp [hb]
    simp only [groupStep, hs, Bool.false_eq_true, if_false]
    rw [alookup_aupdate_self, alookup_append_of_none hb]
    simp [alookup]

theorem alookup_groupStep_ne (m : List (String × StageBucket)) (ev : AgentEvent)
    (k : String) (h : k ≠ evStageKey ev) :
    alookup k (groupStep m ev) = alookup k m := by
  by_cases hs : (alookup (evStageKey ev) m).isSome
  · simp only [groupStep, hs, if_true]
    exact alookup_aupdate_ne _ _ h
  · simp only [groupStep, hs, Bool.false_eq_true, if_false]
    rw [alookup_aupdate_ne _ _ h]
    cases hb : alookup k m with
    | some b0 => exact alookup_append_of_some hb
    | none =>
      rw [alookup_append_of_none hb]
      simp [alookup, Ne.symm h]

theorem groupStep_keeps_key (m : List (String × StageBucket)) (ev : AgentEvent)
    (k : String) (h : ∃ b, alookup k m = some b) :
    ∃ b, alookup k (groupStep m ev) = some b := by
  by_cases hks : k = evStageKey ev
  · rw [hks, alookup_groupStep_self]
    exact ⟨_, rfl⟩
  · rw [alookup_groupStep_ne _ _ _ hks]
    exact h

theorem groupStep_keeps_failed (m : List (String × StageBucket)) (ev : AgentEvent)
    (k : String) (b : StageBucket) (hb : alookup k m = some b)
    (hf : b.status = .failed) :
    ∃ b2, alookup k (groupStep m ev) = some b2 ∧ b2.status = .failed := by
  by_cases hks : k = evStageKey ev
  · rw [hks] at hb
    rw [hks, alookup_groupStep_self, hb]
    exact ⟨_, rfl, by simp [hf, bumpStatus_of_failed]⟩
  · rw [alookup_groupStep_ne _ _ _ hks]
    exact ⟨b, hb, hf⟩

theorem groupStep_sets_failed (m : List (String × StageBucket)) (ev : AgentEvent)
    (hst : ev.status = some "failed") :
    ∃ b, alookup (evStageKey ev) (groupStep m ev) = some b ∧
      b.status = .failed := by
  rw [alookup_groupStep_self]
  cases hb : alookup (evStageKey ev) m with
  | some b0 => exact ⟨_, rfl, by simp [hst, bumpStatus_failed_ev]⟩
  | none => exact ⟨_, rfl, by simp [hst, bumpStatus_failed_ev]⟩

theorem foldl_keeps_key (l : List AgentEvent) :
    ∀ (m : List (String × StageBucket)) (k : String),
      (∃ b, alookup k m = some b) →
      ∃ b, alookup k (l.foldl groupStep m) = some b := by
  induction l with
  | nil => intro m k h; simpa using h
  | cons ev rest ih =>
    intro m k h
    exact ih _ _ (groupStep_keeps_key m ev k h)

theorem foldl_keeps_failed (l : List AgentEvent) :
    ∀ (m : List (String × StageBucket)) (k : String) (b : StageBucket),
      alookup k m = some b → b.status = .failed →
      ∃ b2, alookup k (l.foldl groupStep m) = some b2 ∧ b2.status = .failed := by
  induction l with
  | nil => intro m k b h hf; exact ⟨b, by simpa using h, hf⟩
  | cons ev rest ih =>
    intro m k b h hf
    obtain ⟨b2, h2, hf2⟩ := groupStep_keeps_failed m ev k b h hf
    exact ih _ _ _ h2 hf2

theorem alookup_map_pending (ks : List String) (k : String) (hk : k ∈ ks) :
    ∃ b, alookup k (ks.map (fun s => (s, (⟨[], .pending⟩ : StageBucket)))) =
      some b := by
  induction ks with
  | nil => cases hk
  | cons a rest ih =>
    by_cases h : a = k
    · exact ⟨⟨[], .pending⟩, by simp [alookup, h]⟩
    · have hk2 : k ∈ rest := by
        rcases List.mem_cons.mp hk with h2 | h2
        · exact absurd h2.symm h
        · exact h2
      obtain ⟨b, hb⟩ := ih hk2
      exact ⟨b, by simpa [alookup, h] using hb⟩

/-- C8: for every event list, the map returned by `groupByStage` keeps an
entry for each of the eight `PIPELINE_ORDER` stage keys, and every stage key
under which at least one event carries status "failed" is assigned final
status failed, whatever the other events grouped under it are. -/
theorem groupByStage_keys_and_failed (events : List AgentEvent) :
    (∀ k ∈ PIPELINE_ORDER, ∃ b, alookup k (groupByStage events) = some b) ∧
    (∀ k, (∃ ev, ev ∈ events ∧ evStageKey ev = k ∧ ev.status = some "failed") →
      ∃ b, alookup k (groupByStage events) = some b ∧ b.status = .failed) := by
  constructor
  · intro k hk
    exact foldl_keeps_key events initStageMap k (alookup_map_pending _ k hk)
  · rintro k ⟨ev, hev, hkey, hst⟩
    obtain ⟨l1, l2, rfl⟩ := List.append_of_mem hev
    unfold groupByStage
    rw [List.foldl_append, List.foldl_cons]
    obtain ⟨b, hb, hbf⟩ :=
      groupStep_sets_failed (l1.foldl groupStep initStageMap) ev hst
    rw [hkey] at hb
    exact foldl_keeps_failed l2 _ k b hb hbf

/-- Witness for C8 at a concrete event list: a failed event on the research
stage is not overridden by a later succeeded event, and the research key is
present in the map. -/
theorem groupByStage_keys_and_failed_witness :
    (∃ b, alookup "research" (groupByStage [wEvFail, wEvOk]) = some b ∧
      b.status = .failed) ∧
    (∃ b, alookup "research" (groupByStage [wEvFail, wEvOk]) = some b) :=
  ⟨(groupByStage_keys_and_failed [wEvFail, wEvOk]).2 "research"
      ⟨wEvFail, List.mem_cons_self _ _, by decide, by decide⟩,
   (groupByStage_keys_and_failed [wEvFail, wEvOk]).1 "research" (by decide)⟩

/-! ### Agent-name canonicalization (C9) -/

/-- C9: `mapAgentNameToKey` is total and idempotent: every canonical key it
can output is itself mapped to that same key, and unknown names are
returned unchanged. -/
theorem mapAgentNameToKey_idempotent (s : String) :
    mapAgentNameToKey (mapAgentNameToKey s) = mapAgentNameToKey s ∧
    (alookup s agentMapping = none → mapAgentNameToKey s = s) := by
  constructor
  · cases h : alookup s agentMapping with
    | none =>
      have hs : mapAgentNameToKey s = s := by
        simp [mapAgentNameToKey, h, orDefault]
      rw [hs]
      exact hs
    | some v =>
      have hv := alookup_mem h
      simp only [agentMapping] at hv
      have hs : mapAgentNameToKey s = v := by
        have hvne : v ≠ "" := by
          fin_cases hv <;> decide
        simp [mapAgentNameToKey, h, orDefault, hvne]
      rw [hs]
      fin_cases hv <;> decide
  · intro h
    simp [mapAgentNameToKey, h, orDefault]

/-- Witness for C9 at a concrete unknown agent name. -/
theorem mapAgentNameToKey_idempotent_witness :
    mapAgentNameToKey (mapAgentNameToKey "RogueAgent") =
      mapAgentNameToKey "RogueAgent" ∧
    mapAgentNameToKey "RogueAgent" = "RogueAgent" :=
  ⟨(mapAgentNameToKey_idempotent "RogueAgent").1,
   (mapAgentNameToKey_idempotent "RogueAgent").2 (by decide)⟩

/-! ### Document list de-duplication (C10) -/

theorem dedupeByPathAux_sublist :
    ∀ (l : List FileItem) (seen : List String),
      (dedupeByPathAux seen l).Sublist l := by
  intro l
  induction l with
  | nil => intro seen; simp [dedupeByPathAux]
  | cons f fs ih =>
    intro seen
    by_cases h : f.path ∈ seen
    · simp only [dedupeByPathAux, if_pos h]
      exact (ih seen).cons f
    · simp only [dedupeByPathAux, if_neg h]
      exact (ih _).cons₂ f

theorem dedupeByPathAux_notmem_seen :
    ∀ (l : List FileItem) (seen : List String) (g : FileItem),
      g ∈ dedupeByPathAux seen l → g.path ∉ seen := by
  intro l
  induction l with
  | nil => intro seen g hg; simp [dedupeByPathAux] at hg
  | cons f fs ih =>
    intro seen g hg
    by_cases h : f.path ∈ seen
    · simp only [dedupeByPathAux, if_pos h] at hg
      exact ih seen g hg
    · simp only [dedupeByPathAux, if_neg h] at hg
      rcases List.mem_cons.mp hg with rfl | hg2
      · exact h
      · intro hs
        exact ih _ g hg2 (List.mem_cons_of_mem _ hs)

theorem dedupeByPathAux_paths_nodup :
    ∀ (l : List FileItem) (seen : List String),
      ((dedupeByPathAux seen l).map FileItem.path).Nodup := by
  intro l
  induction l with
  | nil => intro seen; simp [dedupeByPathAux]
  | cons f fs ih =>
    intro seen
    by_cases h : f.path ∈ seen
    · simp only [dedupeByPathAux, if_pos h]
      exact ih seen
    · simp only [dedupeByPathAux, if_neg h, List.map_cons, List.nodup_cons]
      refine ⟨?_, ih _⟩
      intro hmem
      obtain ⟨g, hg, hgp⟩ := List.mem_map.mp hmem
      exact dedupeByPathAux_notmem_seen fs _ g hg
        (by rw [hgp]; exact List.mem_cons_self _ _)

theorem dedupeByPathAux_findFirst :
    ∀ (l : List FileItem) (seen : List String) (p : String), p ∉ seen →
      findByPath p (dedupeByPathAux seen l) = findByPath p l := by
  intro l
  induction l with
  | nil => intro seen p _; rfl
  | cons f fs ih =>
    intro seen p hp
    by_cases h : f.path ∈ seen
    · simp only [dedupeByPathAux, if_pos h]
      have hne : f.path ≠ p := by
        intro he
        exact hp (he ▸ h)
      rw [show findByPath p (f :: fs) = findByPath p fs from by
        simp only [findByPath, if_neg hne]]
      exact ih seen p hp
    · simp only [dedupeByPathAux, if_neg h]
      by_cases hfp : f.path = p
      · simp only [findByPath, if_pos hfp]
      · simp only [findByPath, if_neg hfp]
        apply ih
        intro hc
        rcases List.mem_cons.mp hc with he | hs
        · exact hfp he.symm
        · exact hp hs

theorem dedupeByPathAux_fixed :
    ∀ (m : List FileItem) (seen : List String),
      (∀ g ∈ m, g.path ∉ seen) → ((m.map FileItem.path).Nodup) →
      dedupeByPathAux seen m = m := by
  intro m
  induction m with
  | nil => intro seen _ _; rfl
  | cons f fs ih =>
    intro seen hnot hnd
    simp only [List.map_cons, List.nodup_cons] at hnd
    have hf : f.path ∉ seen := hnot f (List.mem_cons_self _ _)
    simp only [dedupeByPathAux, if_neg hf]
    congr 1
    apply ih
    · intro g hg hc
      rcases List.mem_cons.mp hc with he | hs
      · exact hnd.1 (List.mem_map.mpr ⟨g, hg, he⟩)
      · exact hnot g (List.mem_cons_of_mem _ hg) hs
    · exact hnd.2

/-- C10: `dedupeByPath` returns the order-preserving subsequence of the
input that keeps, for each distinct path, exactly the first item carrying
that path: it is a sublist of the input, its paths are pairwise distinct,
finding any path in it agrees with finding it in the input, and it is
idempotent. -/
theorem dedupeByPath_spec (files : List FileItem) :
    (dedupeByPath files).Sublist files ∧
    ((dedupeByPath files).map FileItem.path).Nodup ∧
    (∀ p : String, findByPath p (dedupeByPath files) = findByPath p files) ∧
    dedupeByPath (dedupeByPath files) = dedupeByPath files := by
  refine ⟨dedupeByPathAux_sublist files [], dedupeByPathAux_paths_nodup files [],
    ?_, ?_⟩
  · intro p
    exact dedupeByPathAux_findFirst files [] p (by simp)
  · exact dedupeByPathAux_fixed (dedupeByPath files) []
      (by intro g _; simp) (dedupeByPathAux_paths_nodup files [])

/-! ### Marker search lemmas -/

theorem findIdxP_some_get (p : String → Bool) :
    ∀ (l : List String) (i : Nat), findIdxP p l = some i →
      ∃ a, l.get? i = some a ∧ p a = true := by
  intro l
  induction l with
  | nil => intro i h; simp [findIdxP] at h
  | cons x rest ih =>
    intro i h
    by_cases hx : p x
    · simp only [findIdxP, if_pos hx, Option.some.injEq] at h
      subst h
      exact ⟨x, rfl, hx⟩
    · simp only [findIdxP, if_neg hx] at h
      cases hr : findIdxP p rest with
      | none => rw [hr] at h; simp at h
      | some j =>
        rw [hr] at h
        simp only [Option.map_some', Option.some.injEq] at h
        subst h
        obtain ⟨a, ha, hpa⟩ := ih j hr
        exact ⟨a, by simpa [List.get?] using ha, hpa⟩

theorem findIdxP_some_min (p : String → Bool) :
    ∀ (l : List String) (i : Nat), findIdxP p l = some i →
      ∀ j, j < i → ∀ a, l.get? j = some a → p a = false := by
  intro l
  induction l with
  | nil => intro i h; simp [findIdxP] at h
  | cons x rest ih =>
    intro i h
    by_cases hx : p x
    · simp only [findIdxP, if_pos hx, Option.some.injEq] at h
      subst h
      intro j hj
      omega
    · simp only [findIdxP, if_neg hx] at h
      cases hr : findIdxP p rest with
      | none => rw [hr] at h; simp at h
      | some i0 =>
        rw [hr] at h
        simp only [Option.map_some', Option.some.injEq] at h
        subst h
        intro j hj a ha
        cases j with
        | zero =>
          simp only [List.get?, Option.some.injEq] at ha
          subst ha
          exact Bool.eq_false_iff.mpr hx
        | succ j0 =>
          simp only [List.get?] at ha
          exact ih i0 hr j0 (by omega) a ha

theorem findIdxP_none (p : String → Bool) :
    ∀ (l : List String), findIdxP p l = none → ∀ a ∈ l, p a = false := by
  intro l
  induction l with
  | nil => intro _ a ha; cases ha
  | cons x rest ih =>
    intro h a ha
    by_cases hx : p x
    · simp [findIdxP, hx] at h
    · simp only [findIdxP, if_neg hx] at h
      rcases List.mem_cons.mp ha with rfl | ha2
      · exact Bool.eq_false_iff.mpr hx
      · cases hr : findIdxP p rest with
        | none => exact ih hr a ha2
        | some j => rw [hr] at h; simp at h

/-! ### SpecExtractor postcondition (C2) -/

/-- C2: the three-case postcondition of `extractSpec`: with the earliest
start-marker line at `s` and the earliest end-marker line after it at
absolute index `s + 1 + k`, the result is the slice from the start marker
up to but excluding the end-marker line; with no end marker the result
runs from the start marker to the end of the document; with no start
marker the result is the fixed checklist template, a constant independent
of the input. -/
theorem extractSpec_cases (tenderLines : List String) :
    (findIdxP isStartMarker tenderLines = none →
      extractSpec tenderLines = defaultSpecChecklist) ∧
    (∀ s, findIdxP isStartMarker tenderLines = some s →
      (∀ a, tenderLines.get? s = some a → isStartMarker a = true) ∧
      (∀ j, j < s → ∀ a, tenderLines.get? j = some a → isStartMarker a = false) ∧
      (findIdxP isEndMarker (tenderLines.drop (s + 1)) = none →
        extractSpec tenderLines = tenderLines.drop s) ∧
      (∀ k, findIdxP isEndMarker (tenderLines.drop (s + 1)) = some k →
        s < s + 1 + k ∧
        extractSpec tenderLines = (tenderLines.drop s).take (k + 1) ∧
        (∀ a, tenderLines.get? (s + 1 + k) = some a → isEndMarker a = true) ∧
        (extractSpec tenderLines).length ≤ k + 1)) := by
  constructor
  · intro h
    simp only [extractSpec, h]
  · intro s hs
    have hdd : (tenderLines.drop s).drop 1 = tenderLines.drop (s + 1) := by
      rw [List.drop_drop]
    refine ⟨?_, ?_, ?_, ?_⟩
    · intro a ha
      obtain ⟨a0, ha0, hpa⟩ := findIdxP_some_get _ _ _ hs
      rw [ha0, Option.some.injEq] at ha
      exact ha ▸ hpa
    · intro j hj a ha
      exact findIdxP_some_min _ _ _ hs j hj a ha
    · intro hend
      have hend2 : findIdxP isEndMarker ((tenderLines.drop s).drop 1) = none := by
        rw [hdd]; exact hend
      simp only [extractSpec, hs, hend2]
    · intro k hk
      have hk2 : findIdxP isEndMarker ((tenderLines.drop s).drop 1) = some k := by
        rw [hdd]; exact hk
      refine ⟨by omega, ?_, ?_, ?_⟩
      · simp only [extractSpec, hs, hk2]
      · intro a ha
        obtain ⟨a0, ha0, hpa⟩ := findIdxP_some_get _ _ _ hk
        rw [List.get?_drop] at ha0
        rw [ha0, Option.some.injEq] at ha
        exact ha ▸ hpa
      · simp only [extractSpec, hs, hk2, List.length_take]
        omega

/-- Witness for C2 on a concrete tender document whose start marker sits at
line 1 and whose end marker sits at line 4: the extracted slice covers
lines 1 to 3 and excludes the end-marker line. -/
theorem extractSpec_cases_witness :
    1 < 1 + 1 + 2 ∧
    extractSpec wTender = (wTender.drop 1).take (2 + 1) ∧
    (extractSpec wTender).length ≤ 2 + 1 :=
  have h := (((extractSpec_cases wTender).2 1 (by decide)).2.2.2) 2 (by decide)
  ⟨h.1, h.2.1, h.2.2.2⟩

/-! ### StructureExtractor (C1) -/

theorem dedupTitlesAux_notmem_seen :
    ∀ (ts seen : List String) (t : String),
      t ∈ dedupTitlesAux seen ts → t ∉ seen := by
  intro ts
  induction ts with
  | nil => intro seen t ht; simp [dedupTitlesAux] at ht
  | cons x rest ih =>
    intro seen t ht
    by_cases h : x ∈ seen
    · simp only [dedupTitlesAux, if_pos h] at ht
      exact ih seen t ht
    · simp only [dedupTitlesAux, if_neg h] at ht
      rcases List.mem_cons.mp ht with rfl | ht2
      · exact h
      · intro hs
        exact ih _ t ht2 (List.mem_cons_of_mem _ hs)

theorem dedupTitlesAux_nodup :
    ∀ (ts seen : List String), (dedupTitlesAux seen ts).Nodup := by
  intro ts
  induction ts with
  | nil => intro seen; simp [dedupTitlesAux]
  | cons x rest ih =>
    intro seen
    by_cases h : x ∈ seen
    · simp only [dedupTitlesAux, if_pos h]
      exact ih seen
    · simp only [dedupTitlesAux, if_neg h, List.nodup_cons]
      refine ⟨?_, ih _⟩
      intro hmem
      exact dedupTitlesAux_notmem_seen rest _ x hmem (List.mem_cons_self _ _)

/-- C1: on every non-empty tender document `extractStructure` returns a
non-empty, duplicate-free section list, and when both pattern tiers come
back empty it returns exactly the fixed 11-item default skeleton. -/
theorem extractStructure_spec (tenderLines : List String)
    (hne : tenderLines ≠ []) :
    extractStructure tenderLines ≠ [] ∧
    (extractStructure tenderLines).Nodup ∧
    (tier1Structure tenderLines = [] → tier2Structure tenderLines = [] →
      extractStructure tenderLines = defaultSkeleton) := by
  by_cases h1 : dedupTitles (tier1Structure tenderLines) = []
  · by_cases h2 : dedupTitles (tier2Structure tenderLines) = []
    · have he : extractStructure tenderLines = defaultSkeleton := by
        simp [extractStructure, h1, h2]
      refine ⟨?_, ?_, fun _ _ => he⟩
      · rw [he]; decide
      · rw [he]; decide
    · have he : extractStructure tenderLines =
          dedupTitles (tier2Structure tenderLines) := by
        simp [extractStructure, h1, h2]
      refine ⟨?_, ?_, ?_⟩
      · rw [he]; exact h2
      · rw [he]; exact dedupTitlesAux_nodup _ _
      · intro _ ht2
        exact absurd (by rw [ht2]; rfl) h2
  · have he : extractStructure tenderLines =
        dedupTitles (tier1Structure tenderLines) := by
      simp [extractStructure, h1]
    refine ⟨?_, ?_, ?_⟩
    · rw [he]; exact h1
    · rw [he]; exact dedupTitlesAux_nodup _ _
    · intro ht1 _
      exact absurd (by rw [ht1]; rfl) h1

/-- Witness for C1 on a concrete one-line document with no recognizable
structure: the fixed skeleton is returned, non-empty and duplicate-free. -/
theorem extractStructure_spec_witness :
    extractStructure ["任意自由文本"] ≠ [] ∧
    (extractStructure ["任意自由文本"]).Nodup ∧
    extractStructure ["任意自由文本"] = defaultSkeleton :=
  have h := extractStructure_spec ["任意自由文本"] (by decide)
  ⟨h.1, h.2.1, h.2.2 (by decide) (by decide)⟩

/-! ### PlanOutliner fallback (C3) -/

theorem header_ne_evidence (n : String) (w : Nat) :
    (("## " ++ n ++ "（" ++ toString w ++ "分）") == evidenceBindingLine) = false := by
  rw [beq_eq_false_iff_ne]
  intro h
  have hd : ("## " ++ n ++ "（" ++ toString w ++ "分）").data =
      evidenceBindingLine.data := congrArg String.data h
  simp only [String.data_append] at hd
  have h1 : evidenceBindingLine.data =
      'e' :: ("vidence binding: specification §x.x" : String).data := rfl
  rw [h1] at hd
  simp only [List.append_assoc, List.cons_append, List.nil_append] at hd
  exact absurd (List.cons.inj hd).1 (by decide)

theorem fallbackOutlineOf_count (ws : List (String × Nat)) :
    (fallbackOutlineOf ws).countP (fun l => l == evidenceBindingLine) =
      ws.length := by
  induction ws with
  | nil => rfl
  | cons sw rest ih =>
    simp only [fallbackOutlineOf, List.countP_cons, header_ne_evidence, ih,
      beq_self_eq_true, List.length_cons]
    simp

theorem fallbackOutlineOf_mem (ws : List (String × Nat)) :
    ∀ sw ∈ ws,
      ("## " ++ sw.1 ++ "（" ++ toString sw.2 ++ "分）") ∈ fallbackOutlineOf ws := by
  induction ws with
  | nil => intro sw h; cases h
  | cons x rest ih =>
    intro sw h
    rcases List.mem_cons.mp h with rfl | h2
    · exact List.mem_cons_self _ _
    · exact List.mem_cons_of_mem _ (List.mem_cons_of_mem _ (ih sw h2))

/-- C3: when the Completion Gateway fails, or succeeds with blank output,
`outlinePlan` returns the deterministic fallback outline, a function of the
scoring weights of `meta` alone, which carries one evidence-binding
placeholder per scored section and the header of every scored section; the
gateway failure is absorbed, never propagated. -/
theorem outlinePlan_fallback (gw : Gateway) (specText : List String)
    (meta : ProjectMeta)
    (hfail : gw "plan_outliner" (buildPrompt specText) = none ∨
      ∃ out, gw "plan_outliner" (buildPrompt specText) = some out ∧
        isBlank out = true) :
    outlinePlan gw specText meta = fallbackOutline meta ∧
    (outlinePlan gw specText meta).countP (fun l => l == evidenceBindingLine) =
      meta.scoringWeights.length ∧
    ∀ sw ∈ meta.scoringWeights,
      ("## " ++ sw.1 ++ "（" ++ toString sw.2 ++ "分）") ∈
        outlinePlan gw specText meta := by
  have he : outlinePlan gw specText meta = fallbackOutline meta := by
    rcases hfail with h | ⟨out, hout, hblank⟩
    · simp only [outlinePlan, h]
    · simp only [outlinePlan, hout, hblank, if_true]
  refine ⟨he, ?_, ?_⟩
  · rw [he]
    exact fallbackOutlineOf_count _
  · intro sw hsw
    rw [he]
    exact fallbackOutlineOf_mem _ sw hsw

/-- Witness for C3: with the gateway down, the fallback outline is produced
and carries one evidence-binding placeholder per scored section of the
demo metadata. -/
theorem outlinePlan_fallback_witness :
    outlinePlan gwDown defaultSpecChecklist metaDemo = fallbackOutline metaDemo ∧
    (outlinePlan gwDown defaultSpecChecklist metaDemo).countP
      (fun l => l == evidenceBindingLine) = 2 :=
  have h := outlinePlan_fallback gwDown defaultSpecChecklist metaDemo (Or.inl rfl)
  ⟨h.1, h.2.1.trans rfl⟩

/-! ### SanityChecker report shape (C4) -/

theorem findIdxP_eq_none (p : String → Bool) :
    ∀ (l : List String), (∀ a ∈ l, p a = false) → findIdxP p l = none := by
  intro l
  induction l with
  | nil => intro _; rfl
  | cons x rest ih =>
    intro h
    have hx : p x = false := h x (List.mem_cons_self _ _)
    simp only [findIdxP, hx, Bool.false_eq_true, if_false]
    rw [ih (fun a ha => h a (List.mem_cons_of_mem _ ha))]
    rfl

theorem checkCategory_name (draftLines : List String) (c : String × List String) :
    (checkCategory draftLines c).name = c.1 := by
  unfold checkCategory
  cases firstHit draftLines c.2 <;> rfl

theorem countP_present_split (l : List CategoryEntry) :
    l.countP (fun c => c.present) + l.countP (fun c => !c.present) = l.length := by
  induction l with
  | nil => rfl
  | cons c rest ih =>
    simp only [List.countP_cons, List.length_cons]
    cases hc : c.present <;> simp [hc] <;> omega

/-- C4: the sanity report carries exactly one entry per category of the
fixed, closed compliance set, its summary counts are exactly the numbers
of present and absent entries, and a draft with no environmental-protection
keyword yields an absent entry for that category, counted in `absentCount`. -/
theorem checkSanity_shape (draftLines : List String) (meta : ProjectMeta) :
    ((checkSanity draftLines meta).categories.map CategoryEntry.name =
      complianceCategories.map Prod.fst) ∧
    (checkSanity draftLines meta).summary.presentCount =
      (checkSanity draftLines meta).categories.countP (fun c => c.present) ∧
    (checkSanity draftLines meta).summary.absentCount =
      (checkSanity draftLines meta).categories.countP (fun c => !c.present) ∧
    (checkSanity draftLines meta).summary.presentCount +
      (checkSanity draftLines meta).summary.absentCount =
      complianceCategories.length ∧
    ((∀ kw ∈ ["环保", "环境保护"], draftContains draftLines kw = false) →
      (⟨"环境保护", false, none⟩ : CategoryEntry) ∈
        (checkSanity draftLines meta).categories ∧
      1 ≤ (checkSanity draftLines meta).summary.absentCount) := by
  refine ⟨?_, rfl, rfl, ?_, ?_⟩
  · simp only [checkSanity, complianceCategories, List.map_cons, List.map_nil,
      checkCategory_name]
  · have hc : (checkSanity draftLines meta).categories =
        complianceCategories.map (checkCategory draftLines) := rfl
    have hlen := countP_present_split (checkSanity draftLines meta).categories
    rw [hc, List.length_map] at hlen
    exact hlen
  · intro hkw
    have h1 : ∀ line ∈ draftLines, containsSub "环保" line = false := by
      intro line hl
      exact Bool.eq_false_iff.mpr
        (List.any_eq_false.mp (hkw "环保" (by simp)) line hl)
    have h2 : ∀ line ∈ draftLines, containsSub "环境保护" line = false := by
      intro line hl
      exact Bool.eq_false_iff.mpr
        (List.any_eq_false.mp (hkw "环境保护" (by simp)) line hl)
    have hline : ∀ a ∈ draftLines,
        (["环保", "环境保护"].any (fun kw => containsSub kw a)) = false := by
      intro a ha
      simp only [List.any_cons, List.any_nil, Bool.or_false]
      rw [h1 a ha, h2 a ha]
      rfl
    have henv : checkCategory draftLines ("环境保护", ["环保", "环境保护"]) =
        ⟨"环境保护", false, none⟩ := by
      have hfh : firstHit draftLines ["环保", "环境保护"] = none :=
        findIdxP_eq_none _ _ hline
      simp only [checkCategory, hfh]
    have hmem : (⟨"环境保护", false, none⟩ : CategoryEntry) ∈
        (checkSanity draftLines meta).categories := by
      refine List.mem_map.mpr ⟨("环境保护", ["环保", "环境保护"]), ?_, henv⟩
      simp [complianceCategories]
    refine ⟨hmem, ?_⟩
    exact List.countP_pos_iff.mpr ⟨⟨"环境保护", false, none⟩, hmem, rfl⟩

/-- Witness for C4 on a concrete draft with no environmental-protection
keyword: the category is reported absent and counted. -/
theorem checkSanity_shape_witness :
    (⟨"环境保护", false, none⟩ : CategoryEntry) ∈
      (checkSanity wDraft metaDemo).categories ∧
    1 ≤ (checkSanity wDraft metaDemo).summary.absentCount :=
  (checkSanity_shape wDraft metaDemo).2.2.2.2 (by decide)

/-! ### Pipeline determinism and idempotence (C5) -/

/-- C5: two full runs on identical `tenderText` and `meta` through gateways
with identical behavior produce identical `sectionList`, `specText`,
`outlineText` and `sanityReport`; and re-running any single stage on its
own output changes nothing, since each stage reads only earlier artifacts
and replaces only its own slot. -/
theorem pipeline_idempotent (gw1 gw2 : Gateway) (sid : String)
    (tender : List String) (meta : ProjectMeta)
    (hgw : ∀ a p, gw1 a p = gw2 a p) (stg : Stage) (st : PipelineState) :
    (runPipeline gw1 sid tender meta).sectionList =
      (runPipeline gw2 sid tender meta).sectionList ∧
    (runPipeline gw1 sid tender meta).specText =
      (runPipeline gw2 sid tender meta).specText ∧
    (runPipeline gw1 sid tender meta).outlineText =
      (runPipeline gw2 sid tender meta).outlineText ∧
    (runPipeline gw1 sid tender meta).sanityReport =
      (runPipeline gw2 sid tender meta).sanityReport ∧
    runStage gw1 (runStage gw1 st stg) stg = runStage gw1 st stg := by
  have hg : gw1 = gw2 := funext fun a => funext fun p => hgw a p
  subst hg
  exact ⟨rfl, rfl, rfl, rfl, by cases stg <;> rfl⟩

/-- Witness for C5: a stubbed-down gateway yields equal artifacts across
re-runs and stage B is idempotent on the demo state. -/
theorem pipeline_idempotent_witness :
    (runPipeline gwDown "s3" wTender metaDemo).outlineText =
      (runPipeline gwDown "s3" wTender metaDemo).outlineText ∧
    runStage gwDown (runStage gwDown (initState "s3" wTender metaDemo) .B) .B =
      runStage gwDown (initState "s3" wTender metaDemo) .B :=
  have h := pipeline_idempotent gwDown gwDown "s3" wTender metaDemo
    (fun _ _ => rfl) .B (initState "s3" wTender metaDemo)
  ⟨h.2.2.1, h.2.2.2.2⟩

/-! ### Partial replay equivalence (C6) -/

/-- C6: resuming at stage C from a state already populated through stage B
produces the same `draftText` as a fresh full run with the same gateway,
and the resumed stages C, D, E leave the persisted `sectionList` and
`specText` unchanged. -/
theorem partial_replay_equiv (gw : Gateway) (sid : String)
    (tender : List String) (meta : ProjectMeta) (st : PipelineState) :
    (runStages gw [Stage.C, Stage.D, Stage.E]
        (runStages gw [Stage.A, Stage.B] (initState sid tender meta))).draftText =
      (runPipeline gw sid tender meta).draftText ∧
    (runStages gw [Stage.C, Stage.D, Stage.E] st).sectionList = st.sectionList ∧
    (runStages gw [Stage.C, Stage.D, Stage.E] st).specText = st.specText := by
  exact ⟨rfl, rfl, rfl⟩

/-! ### Fail-fast entry point (C7) -/

theorem runPipeline_populates (gw : Gateway) (sid : String)
    (tender : List String) (meta : ProjectMeta) :
    (runPipeline gw sid tender meta).sectionList.isSome = true ∧
    (runPipeline gw sid tender meta).specText.isSome = true ∧
    (runPipeline gw sid tender meta).outlineText.isSome = true ∧
    (runPipeline gw sid tender meta).draftText.isSome = true ∧
    (runPipeline gw sid tender meta).sanityReport.isSome = true :=
  ⟨rfl, rfl, rfl, rfl, rfl⟩

/-- C7: `build` fails with the malformed-input error exactly when the
tender text is blank, in which case no stage runs and no state is
produced; otherwise it returns the fully populated pipeline state of a
full run, and no other error crosses the pipeline boundary. -/
theorem build_fail_fast (gw : Gateway) (sid : String) (tender : List String)
    (meta : ProjectMeta) :
    (build gw sid tender meta = .error .malformedInput ↔
      isBlankDoc tender = true) ∧
    (isBlankDoc tender = false →
      build gw sid tender meta = .ok (runPipeline gw sid tender meta)) ∧
    (∀ st, build gw sid tender meta = .ok st →
      st.sectionList.isSome = true ∧ st.specText.isSome = true ∧
      st.outlineText.isSome = true ∧ st.draftText.isSome = true ∧
      st.sanityReport.isSome = true) := by
  cases hb : isBlankDoc tender with
  | true =>
    refine ⟨by simp [build, hb], ?_, ?_⟩
    · intro h; cases h
    · intro st hst
      simp only [build, hb, if_true] at hst
      cases hst
  | false =>
    refine ⟨by simp [build, hb], ?_, ?_⟩
    · intro _
      simp [build, hb]
    · intro st hst
      simp only [build, hb, Bool.false_eq_true, if_false, Except.ok.injEq] at hst
      subst hst
      exact runPipeline_populates gw sid tender meta

/-- Witness for C7: blank input is rejected with the malformed-input error
while the concrete tender document builds successfully. -/
theorem build_fail_fast_witness :
    build gwDown "s1" ["", "  "] metaDemo = .error .malformedInput ∧
    build gwDown "s2" wTender metaDemo =
      .ok (runPipeline gwDown "s2" wTender metaDemo) :=
  ⟨(build_fail_fast gwDown "s1" ["", "  "] metaDemo).1.mpr (by decide),
   (build_fail_fast gwDown "s2" wTender metaDemo).2.1 (by decide)⟩

end ProjectAgent
